import Mathlib

/-!
Shallow embedding of the bikers-creed-india dashboard core:
the color sanitizer and club-settings fetch (`services` module),
the achievement-progress computation (`AchievementProgress` in `App.tsx`),
and ride creation (`createRide`).

JavaScript string operations (`trim`, `toLowerCase`, `includes`) are
modelled on character lists so that every definition evaluates by kernel
reduction.  Numeric stat values and thresholds are integers (as the spec's
data model declares); the progress fraction is a rational, wrapped in a
small type `JVal` that also models the JavaScript special values `NaN`,
`Infinity` and `-Infinity` produced by division by zero, so that the
divide-by-zero edge case is represented faithfully.
-/

/-- Character-list model of `String.prototype.toLowerCase`. -/
def jsToLower (s : String) : String := String.mk (s.data.map Char.toLower)

/-- Character-list model of `String.prototype.trim`. -/
def jsTrim (s : String) : String :=
  String.mk (((s.data.dropWhile Char.isWhitespace).reverse.dropWhile Char.isWhitespace).reverse)

/-- Does `needle` occur at the head of `hay`? (helper for `containsSub`). -/
def isPrefixList : List Char → List Char → Bool
  | [], _ => true
  | _ :: _, [] => false
  | a :: as, b :: bs => a == b && isPrefixList as bs

/-- Character-list model of `String.prototype.includes`. -/
def containsSub (needle : List Char) : List Char → Bool
  | [] => isPrefixList needle []
  | b :: rest => isPrefixList needle (b :: rest) || containsSub needle rest

/-- `const BRAND_GREEN = '#a4e636'` from the services module. -/
def BRAND_GREEN : String := "#a4e636"

/-- `const LEGACY_RED_HEX = '#e11d47'` from the services module. -/
def LEGACY_RED_HEX : String := "#e11d47"

/-- The disjunction tested by `sanitizeColor` on the trimmed, lower-cased
input: the legacy hex (twice, as in the source), the rgb form, a substring
match on `225, 29, 71`, pure red hex, or the color name `red`. -/
def isLegacyColor (color : String) : Bool :=
  let c := jsToLower (jsTrim color)
  (c == jsToLower LEGACY_RED_HEX) ||
  (c == "#e11d47") ||
  (c == "rgb(225, 29, 71)") ||
  containsSub ("225, 29, 71".toList) c.toList ||
  (c == "#ff0000") ||
  (c == "red")

/-- `sanitizeColor` from the services module.  `none` models the
JavaScript `undefined` argument; a `some ""` input is falsy in the source
(`if (!color)`), so it is mapped to the default brand color as well.
A recognised legacy-red representation is replaced by `BRAND_GREEN`;
every other string is returned unchanged (the original, untrimmed one). -/
def sanitizeColor : Option String → String
  | none => BRAND_GREEN
  | some color =>
    if color = "" then BRAND_GREEN
    else if isLegacyColor color then BRAND_GREEN
    else color

/-- The five achievement categories (`AchievementCategory` union type). -/
inductive AchievementCategory where
  | Kms | Leads | Sweeps | RPs | Rides
deriving DecidableEq, Repr

/-- The `Achievement` record.  Thresholds are integers per the data model. -/
structure Achievement where
  id : Option String
  threshold : Int
  label : String
  category : AchievementCategory
  icon : Option String
deriving DecidableEq, Repr

/-- JavaScript `x || d` on an optional string field: `undefined`, `null`
and the empty string are falsy and yield the default. -/
def jsOrString (x : Option String) (d : String) : String :=
  match x with
  | none => d
  | some s => if s = "" then d else s

/-- The `ClubSettings` record as returned by `getClubSettings`.  Fields
that the source fills through `sanitizeColor` or a `||` default are always
present (`String` / `List Achievement`); fields carried over only by the
`...data` object spread may be absent in the database row and are kept
optional, with the built-in defaults providing a concrete value. -/
structure ClubSettings where
  brandName : Option String
  brandSubName : Option String
  primaryColor : String
  logoUrl : Option String
  achievements : List Achievement
  upiId : Option String
  gpayQrUrl : Option String
  annualFee : Option Int
  lifetimeFee : Option Int
  dashboardBg : String
  headerBg : String
  headerText : Option String
  cardBg : String
  cardBorder : Option String
  globalFont : String
  headingFont : String
  navFont : String
  statFont : String
  buttonFont : String
  inputFont : String
  achievementFont : String
  cardHeaderFont : String
  sectionHeaderFont : String
  buttonBg : String
  buttonText : Option String
  statColor : String
deriving DecidableEq, Repr

/-- A raw `club_settings` database row: every column may be absent. -/
structure ClubSettingsRow where
  brandName : Option String
  brandSubName : Option String
  primaryColor : Option String
  logoUrl : Option String
  achievements : Option (List Achievement)
  upiId : Option String
  gpayQrUrl : Option String
  annualFee : Option Int
  lifetimeFee : Option Int
  dashboardBg : Option String
  headerBg : Option String
  headerText : Option String
  cardBg : Option String
  cardBorder : Option String
  globalFont : Option String
  headingFont : Option String
  navFont : Option String
  statFont : Option String
  buttonFont : Option String
  inputFont : Option String
  achievementFont : Option String
  cardHeaderFont : Option String
  sectionHeaderFont : Option String
  buttonBg : Option String
  buttonText : Option String
  statColor : Option String
deriving DecidableEq, Repr

/-- The `defaults` record built inside `getClubSettings`. -/
def defaultClubSettings : ClubSettings where
  brandName := some "BIKERS"
  brandSubName := some "CREED"
  primaryColor := BRAND_GREEN
  logoUrl := some ""
  achievements :=
    [ { id := none, threshold := 1000, label := "Iron Butt", category := .Kms, icon := none },
      { id := none, threshold := 5, label := "First Lead", category := .Leads, icon := none },
      { id := none, threshold := 10, label := "Road Master", category := .Leads, icon := none },
      { id := none, threshold := 10, label := "Guardian", category := .Sweeps, icon := none },
      { id := none, threshold := 5, label := "Tactician", category := .RPs, icon := none },
      { id := none, threshold := 25, label := "Veteran", category := .Rides, icon := none } ]
  upiId := some ""
  gpayQrUrl := some ""
  annualFee := some 0
  lifetimeFee := some 0
  dashboardBg := "#000000"
  headerBg := "#000000"
  headerText := some "#ffffff"
  cardBg := "#0a0a0a"
  cardBorder := some "#262626"
  globalFont := "Montserrat"
  headingFont := "Bebas Neue"
  navFont := "Bebas Neue"
  statFont := "Bebas Neue"
  buttonFont := "Bebas Neue"
  inputFont := "Montserrat"
  achievementFont := "Bebas Neue"
  cardHeaderFont := "Bebas Neue"
  sectionHeaderFont := "Bebas Neue"
  buttonBg := BRAND_GREEN
  buttonText := some "#000000"
  statColor := BRAND_GREEN

/-- `getClubSettings`.  The supabase `maybeSingle` read is modelled by an
error flag and an optional row: `if (error || !data) return defaults`,
otherwise the row is spread and the three brand-identity colors are
sanitized, `dashboardBg` / `cardBg` / `headerBg` get `||` defaults, and
`achievements` and the nine font fields fall back to the defaults. -/
def getClubSettings (error : Bool) (data : Option ClubSettingsRow) : ClubSettings :=
  match error, data with
  | false, some d =>
    { brandName := d.brandName
      brandSubName := d.brandSubName
      primaryColor := sanitizeColor d.primaryColor
      logoUrl := d.logoUrl
      achievements := match d.achievements with
        | some l => l
        | none => defaultClubSettings.achievements
      upiId := d.upiId
      gpayQrUrl := d.gpayQrUrl
      annualFee := d.annualFee
      lifetimeFee := d.lifetimeFee
      dashboardBg := jsOrString d.dashboardBg "#000000"
      headerBg := jsOrString d.headerBg "#000000"
      headerText := d.headerText
      cardBg := jsOrString d.cardBg "#0a0a0a"
      cardBorder := d.cardBorder
      globalFont := jsOrString d.globalFont defaultClubSettings.globalFont
      headingFont := jsOrString d.headingFont defaultClubSettings.headingFont
      navFont := jsOrString d.navFont defaultClubSettings.navFont
      statFont := jsOrString d.statFont defaultClubSettings.statFont
      buttonFont := jsOrString d.buttonFont defaultClubSettings.buttonFont
      inputFont := jsOrString d.inputFont defaultClubSettings.inputFont
      achievementFont := jsOrString d.achievementFont defaultClubSettings.achievementFont
      cardHeaderFont := jsOrString d.cardHeaderFont defaultClubSettings.cardHeaderFont
      sectionHeaderFont := jsOrString d.sectionHeaderFont defaultClubSettings.sectionHeaderFont
      buttonBg := sanitizeColor d.buttonBg
      buttonText := d.buttonText
      statColor := sanitizeColor d.statColor }
  | _, _ => defaultClubSettings

/-- The subset of the `User` record read by the achievement engine:
identity plus the five cumulative stat counters. -/
structure User where
  id : String
  name : String
  totalRides : Int
  totalKms : Int
  leads : Int
  sweeps : Int
  rps : Int
deriving DecidableEq, Repr

/-- `getStatValue` from the `AchievementProgress` component. -/
def getStatValue (u : User) : AchievementCategory → Int
  | .Kms => u.totalKms
  | .Leads => u.leads
  | .Sweeps => u.sweeps
  | .RPs => u.rps
  | .Rides => u.totalRides

/-- The fixed enumeration order of categories in `AchievementProgress`. -/
def categoriesList : List AchievementCategory :=
  [.Kms, .Leads, .Sweeps, .RPs, .Rides]

/-- JavaScript number values reachable in the progress computation: a
rational, or one of the special values produced by division by zero. -/
inductive JVal where
  | num (q : ℚ)
  | nan
  | inf
  | negInf
deriving DecidableEq, Repr

/-- JavaScript division of two (integer-valued) numbers: `0/0` is `NaN`,
`a/0` is `±Infinity` for nonzero `a`, otherwise the exact quotient. -/
def jdiv (a b : Int) : JVal :=
  if b = 0 then
    if a = 0 then JVal.nan
    else if 0 < a then JVal.inf
    else JVal.negInf
  else JVal.num ((a : ℚ) / (b : ℚ))

/-- Multiplication by 100 (`* 100` in the progress formula). -/
def jmul100 : JVal → JVal
  | JVal.num q => JVal.num (q * 100)
  | JVal.nan => JVal.nan
  | JVal.inf => JVal.inf
  | JVal.negInf => JVal.negInf

/-- `Math.max(0, x)`: propagates `NaN`, maps `-Infinity` to `0`. -/
def jmax0 : JVal → JVal
  | JVal.num q => JVal.num (max 0 q)
  | JVal.nan => JVal.nan
  | JVal.inf => JVal.inf
  | JVal.negInf => JVal.num 0

/-- `Math.min(100, x)`: propagates `NaN`, maps `Infinity` to `100`. -/
def jmin100 : JVal → JVal
  | JVal.num q => JVal.num (min 100 q)
  | JVal.nan => JVal.nan
  | JVal.inf => JVal.num 100
  | JVal.negInf => JVal.negInf

/-- The derived per-category progress state rendered by the component:
`progress` is the clamped raw formula value, `displayed` is the width
actually rendered (`isMaxed ? 100 : progress`). -/
structure CategoryProgress where
  category : AchievementCategory
  current : Int
  prevThreshold : Int
  nextAchievement : Achievement
  progress : JVal
  isMaxed : Bool
  displayed : JVal
deriving DecidableEq, Repr

/-- The category's achievements, filtered then sorted ascending by
threshold (`.filter(...).sort((a, b) => a.threshold - b.threshold)`;
insertion sort is stable, like the JavaScript engine's sort). -/
def sortedCatAchievements (achievements : List Achievement) (cat : AchievementCategory) :
    List Achievement :=
  List.insertionSort (fun a b => a.threshold ≤ b.threshold)
    (achievements.filter (fun a => decide (a.category = cat)))

/-- `catAchievements.find(a => a.threshold > catValue) || catAchievements[catAchievements.length - 1]`. -/
def nextAchievementOf (catA : List Achievement) (v : Int) (h : catA ≠ []) : Achievement :=
  (catA.find? (fun a => decide (v < a.threshold))).getD (catA.getLast h)

/-- `catAchievements.filter(a => a.threshold <= catValue).slice(-1)[0]?.threshold || 0`. -/
def prevThresholdOf (catA : List Achievement) (v : Int) : Int :=
  match (catA.filter (fun a => decide (a.threshold ≤ v))).getLast? with
  | some a => a.threshold
  | none => 0

/-- `Math.min(100, Math.max(0, ((catValue - prevThreshold) / (nextAchievement.threshold - prevThreshold)) * 100))`. -/
def progressOf (catA : List Achievement) (v : Int) (h : catA ≠ []) : JVal :=
  jmin100 (jmax0 (jmul100
    (jdiv (v - prevThresholdOf catA v) ((nextAchievementOf catA v h).threshold - prevThresholdOf catA v))))

/-- `catValue >= catAchievements[catAchievements.length - 1].threshold`. -/
def isMaxedOf (catA : List Achievement) (v : Int) (h : catA ≠ []) : Bool :=
  decide ((catA.getLast h).threshold ≤ v)

/-- One category's entry in the `AchievementProgress` component: `none`
when the filtered list is empty (the component renders nothing for the
category), otherwise the derived progress state. -/
def computeCategoryProgress (achievements : List Achievement) (u : User)
    (cat : AchievementCategory) : Option CategoryProgress :=
  let catValue := getStatValue u cat
  let catA := sortedCatAchievements achievements cat
  if h : catA = [] then none
  else some
    { category := cat
      current := catValue
      prevThreshold := prevThresholdOf catA catValue
      nextAchievement := nextAchievementOf catA catValue h
      progress := progressOf catA catValue h
      isMaxed := isMaxedOf catA catValue h
      displayed := if isMaxedOf catA catValue h then JVal.num 100 else progressOf catA catValue h }

/-- The full list of emitted category entries, in the fixed order. -/
def achievementProgress (achievements : List Achievement) (u : User) : List CategoryProgress :=
  categoriesList.filterMap (computeCategoryProgress achievements u)

/-- The fields supplied by the caller of `createRide`
(`Omit<Ride, 'id' | 'status'>`). -/
structure RideInput where
  title : String
  summary : String
  notes : Option String
  date : String
  startTime : String
  endTime : String
  durationDays : Int
  terrainTypes : List String
  customTerrain : Option String
  marshalId : String
  mapLink : String
  feedbackLink : Option String
  driveLink : Option String
deriving DecidableEq, Repr

/-- A stored ride row: the caller-supplied fields plus a status. -/
structure Ride where
  title : String
  summary : String
  notes : Option String
  date : String
  startTime : String
  endTime : String
  durationDays : Int
  terrainTypes : List String
  customTerrain : Option String
  marshalId : String
  mapLink : String
  feedbackLink : Option String
  driveLink : Option String
  status : String
deriving DecidableEq, Repr

/-- `createRide`: the row inserted is `{ ...rideData, status: 'upcoming' }`. -/
def createRide (r : RideInput) : Ride :=
  { title := r.title
    summary := r.summary
    notes := r.notes
    date := r.date
    startTime := r.startTime
    endTime := r.endTime
    durationDays := r.durationDays
    terrainTypes := r.terrainTypes
    customTerrain := r.customTerrain
    marshalId := r.marshalId
    mapLink := r.mapLink
    feedbackLink := r.feedbackLink
    driveLink := r.driveLink
    status := "upcoming" }

/-- `rides.filter(r => r.status === 'upcoming')` from the rides dashboard. -/
def upcomingRides (rides : List Ride) : List Ride :=
  rides.filter (fun r => decide (r.status = "upcoming"))

/-! ## Helper lemmas -/

instance : IsTotal Achievement (fun a b => a.threshold ≤ b.threshold) :=
  ⟨fun a b => Int.le_total a.threshold b.threshold⟩

instance : IsTrans Achievement (fun a b => a.threshold ≤ b.threshold) :=
  ⟨fun _ _ _ h1 h2 => le_trans h1 h2⟩

/-- The output of `sanitizeColor` is never a recognised legacy-red form. -/
lemma sanitizeColor_not_legacy (x : Option String) :
    isLegacyColor (sanitizeColor x) = false := by
  cases x with
  | none => decide
  | some s =>
    by_cases h0 : s = ""
    · subst h0; decide
    · by_cases hl : isLegacyColor s = true
      · simp only [sanitizeColor, if_neg h0, if_pos hl]; decide
      · simp only [sanitizeColor, if_neg h0, if_neg hl]
        exact Bool.not_eq_true _ |>.mp hl

/-- Clamping any non-`NaN` value through the progress formula's
`Math.min(100, Math.max(0, _ * 100))` lands in `[0, 100]`. -/
lemma clamp_of_ne_nan (j : JVal) (h : j ≠ JVal.nan) :
    ∃ q : ℚ, jmin100 (jmax0 (jmul100 j)) = JVal.num q ∧ 0 ≤ q ∧ q ≤ 100 := by
  cases j with
  | num q =>
    refine ⟨min 100 (max 0 (q * 100)), rfl, ?_, ?_⟩
    · exact le_min (by norm_num) (le_max_left 0 _)
    · exact min_le_left _ _
  | nan => exact absurd rfl h
  | inf => exact ⟨100, rfl, by norm_num, le_refl _⟩
  | negInf => exact ⟨min 100 0, rfl, by norm_num, min_le_left _ _⟩

/-- A successful `find?` splits the list at the first hit. -/
lemma find?_first_decomp {α : Type} {p : α → Bool} {l : List α} {a : α}
    (h : l.find? p = some a) :
    ∃ l1 l2, l = l1 ++ a :: l2 ∧ (∀ b ∈ l1, p b = false) ∧ p a = true := by
  induction l with
  | nil => simp [List.find?] at h
  | cons x xs ih =>
    cases hp : p x with
    | true =>
      rw [List.find?_cons_of_pos _ hp] at h
      obtain rfl := Option.some_inj.mp h
      exact ⟨[], xs, rfl, by simp, hp⟩
    | false =>
      rw [List.find?_cons_of_neg _ (by simp [hp])] at h
      obtain ⟨l1, l2, hsplit, hl1, hpa⟩ := ih h
      exact ⟨x :: l1, l2, by rw [hsplit]; rfl, by
        intro b hb
        rcases List.mem_cons.mp hb with rfl | hb'
        · exact hp
        · exact hl1 b hb', hpa⟩

/-- The witness of a `getLast?` is a member of the list. -/
lemma mem_of_getLast?_eq_some {α : Type} {l : List α} {m : α}
    (h : l.getLast? = some m) : m ∈ l := by
  cases l with
  | nil => simp at h
  | cons x xs =>
    rw [List.getLast?_eq_getLast (x :: xs) (by simp)] at h
    obtain rfl := Option.some_inj.mp h.symm
    exact List.getLast_mem _

/-- In a threshold-sorted list, the last element has the greatest threshold. -/
lemma sorted_getLast?_max {l : List Achievement}
    (hs : l.Pairwise (fun a b => a.threshold ≤ b.threshold))
    {m : Achievement} (h : l.getLast? = some m) :
    ∀ b ∈ l, b.threshold ≤ m.threshold := by
  induction l with
  | nil => simp at h
  | cons x xs ih =>
    cases xs with
    | nil =>
      simp only [List.getLast?_singleton] at h
      obtain rfl := Option.some_inj.mp h.symm
      intro b hb
      simp only [List.mem_singleton] at hb
      subst hb
      exact le_refl _
    | cons y ys =>
      rw [List.getLast?_cons_cons] at h
      rw [List.pairwise_cons] at hs
      obtain ⟨hx, hrest⟩ := hs
      intro b hb
      rcases List.mem_cons.mp hb with rfl | hb'
      · exact le_trans (hx m (mem_of_getLast?_eq_some h)) (le_refl _)
      · exact ih hrest h b hb'

/-- Unfolding of `computeCategoryProgress` on a nonempty filtered list. -/
lemma computeCategoryProgress_of_ne {achievements : List Achievement} {u : User}
    {cat : AchievementCategory} (h : sortedCatAchievements achievements cat ≠ []) :
    computeCategoryProgress achievements u cat =
      some { category := cat
             current := getStatValue u cat
             prevThreshold := prevThresholdOf (sortedCatAchievements achievements cat) (getStatValue u cat)
             nextAchievement := nextAchievementOf (sortedCatAchievements achievements cat) (getStatValue u cat) h
             progress := progressOf (sortedCatAchievements achievements cat) (getStatValue u cat) h
             isMaxed := isMaxedOf (sortedCatAchievements achievements cat) (getStatValue u cat) h
             displayed :=
               if isMaxedOf (sortedCatAchievements achievements cat) (getStatValue u cat) h
               then JVal.num 100
               else progressOf (sortedCatAchievements achievements cat) (getStatValue u cat) h } := by
  simp only [computeCategoryProgress]
  rw [dif_neg h]

/-- Inversion: an emitted entry comes from a nonempty filtered list and is
exactly the record built from the four derived quantities. -/
lemma computeCategoryProgress_some_inv {achievements : List Achievement} {u : User}
    {cat : AchievementCategory} {e : CategoryProgress}
    (he : computeCategoryProgress achievements u cat = some e) :
    ∃ h : sortedCatAchievements achievements cat ≠ [],
      e = { category := cat
            current := getStatValue u cat
            prevThreshold := prevThresholdOf (sortedCatAchievements achievements cat) (getStatValue u cat)
            nextAchievement := nextAchievementOf (sortedCatAchievements achievements cat) (getStatValue u cat) h
            progress := progressOf (sortedCatAchievements achievements cat) (getStatValue u cat) h
            isMaxed := isMaxedOf (sortedCatAchievements achievements cat) (getStatValue u cat) h
            displayed :=
              if isMaxedOf (sortedCatAchievements achievements cat) (getStatValue u cat) h
              then JVal.num 100
              else progressOf (sortedCatAchievements achievements cat) (getStatValue u cat) h } := by
  by_cases hne : sortedCatAchievements achievements cat = []
  · simp only [computeCategoryProgress] at he
    rw [dif_pos hne] at he
    exact absurd he (by simp)
  · rw [computeCategoryProgress_of_ne hne] at he
    exact ⟨hne, (Option.some_inj.mp he).symm⟩

/-- Membership in the emitted list is existence of a producing category. -/
lemma mem_achievementProgress {achievements : List Achievement} {u : User}
    {e : CategoryProgress} :
    e ∈ achievementProgress achievements u ↔
      ∃ c, computeCategoryProgress achievements u c = some e := by
  simp only [achievementProgress, List.mem_filterMap]
  constructor
  · rintro ⟨c, _, hc⟩
    exact ⟨c, hc⟩
  · rintro ⟨c, hc⟩
    exact ⟨c, by cases c <;> simp [categoriesList], hc⟩

/-- The sorted filtered list is a permutation of the filtered list. -/
lemma sortedCatAchievements_perm (achievements : List Achievement) (cat : AchievementCategory) :
    (sortedCatAchievements achievements cat).Perm
      (achievements.filter (fun a => decide (a.category = cat))) := by
  unfold sortedCatAchievements
  exact List.perm_insertionSort _ _

/-- The sorted filtered list is sorted by threshold. -/
lemma sortedCatAchievements_sorted (achievements : List Achievement) (cat : AchievementCategory) :
    (sortedCatAchievements achievements cat).Pairwise (fun a b => a.threshold ≤ b.threshold) := by
  unfold sortedCatAchievements
  exact List.sorted_insertionSort _ _

/-- The sorted filtered list is empty exactly when the filter is. -/
lemma sortedCatAchievements_eq_nil_iff (achievements : List Achievement) (cat : AchievementCategory) :
    sortedCatAchievements achievements cat = [] ↔
      achievements.filter (fun a => decide (a.category = cat)) = [] := by
  constructor
  · intro h
    have hp := sortedCatAchievements_perm achievements cat
    rw [h] at hp
    exact hp.nil_eq.symm
  · intro h
    unfold sortedCatAchievements
    rw [h]
    rfl

/-! ## Claim theorems -/

/-- A stored row whose dashboard background is the legacy red hex; every
other column is absent. -/
def legacyDashRow : ClubSettingsRow where
  brandName := none
  brandSubName := none
  primaryColor := none
  logoUrl := none
  achievements := none
  upiId := none
  gpayQrUrl := none
  annualFee := none
  lifetimeFee := none
  dashboardBg := some "#e11d47"
  headerBg := none
  headerText := none
  cardBg := none
  cardBorder := none
  globalFont := none
  headingFont := none
  navFont := none
  statFont := none
  buttonFont := none
  inputFont := none
  achievementFont := none
  cardHeaderFont := none
  sectionHeaderFont := none
  buttonBg := none
  buttonText := none
  statColor := none

/-- C1 counterexample: a stored record whose `dashboardBg` is the legacy
red hex `#e11d47` is returned by `getClubSettings` with that very value,
which is a recognised legacy representation — so not every color field of
the returned record avoids the retired legacy color. -/
theorem getClubSettings_passthrough_legacy_dashboardBg :
    (getClubSettings false (some legacyDashRow)).dashboardBg = "#e11d47" ∧
    isLegacyColor ((getClubSettings false (some legacyDashRow)).dashboardBg) = true := by
  decide

/-- C1 (amended): for every stored club-settings record (and on the
default fallback), the three sanitized brand-identity color fields of the
record returned by `getClubSettings` — primary accent, button background
and statistic color — are never a recognised legacy-red representation;
the remaining color fields are passed through unsanitized. -/
theorem getClubSettings_brand_colors_never_legacy (error : Bool) (data : Option ClubSettingsRow) :
    isLegacyColor (getClubSettings error data).primaryColor = false ∧
    isLegacyColor (getClubSettings error data).buttonBg = false ∧
    isLegacyColor (getClubSettings error data).statColor = false := by
  cases error with
  | true =>
    have hd : getClubSettings true data = defaultClubSettings := by cases data <;> rfl
    rw [hd]
    exact ⟨by decide, by decide, by decide⟩
  | false =>
    cases data with
    | none => exact ⟨by decide, by decide, by decide⟩
    | some d =>
      exact ⟨sanitizeColor_not_legacy d.primaryColor,
             sanitizeColor_not_legacy d.buttonBg,
             sanitizeColor_not_legacy d.statColor⟩

/-- C5: `sanitizeColor` maps `undefined` and the empty string to the
default brand color, maps every recognised legacy-red representation
(case-insensitively: the legacy hex, the rgb form, any string containing
`225, 29, 71`, pure-red hex, or `red`) to the default brand color, returns
every other input unchanged, and satisfies the claim's concrete
instances. -/
theorem sanitizeColor_contract :
    sanitizeColor none = BRAND_GREEN ∧
    sanitizeColor (some "") = BRAND_GREEN ∧
    (∀ s : String, isLegacyColor s = true → sanitizeColor (some s) = BRAND_GREEN) ∧
    (∀ s : String, s ≠ "" → isLegacyColor s = false → sanitizeColor (some s) = s) ∧
    sanitizeColor (some "#E11D47") = BRAND_GREEN ∧
    sanitizeColor (some "#e11d47") = BRAND_GREEN ∧
    sanitizeColor (some "red") = BRAND_GREEN ∧
    sanitizeColor (some "#123456") = "#123456" := by
  refine ⟨rfl, by decide, ?_, ?_, by decide, by decide, by decide, by decide⟩
  · intro s hs
    by_cases h0 : s = ""
    · subst h0; decide
    · simp only [sanitizeColor, if_neg h0, if_pos hs]
  · intro s h0 hs
    simp only [sanitizeColor, if_neg h0, hs]
    rfl

/-- C5 witness: concrete applications — an upper-case `RED`, a padded
mixed-case rgb form, and an unaffected color. -/
theorem sanitizeColor_contract_witness :
    sanitizeColor (some "RED") = BRAND_GREEN ∧
    sanitizeColor (some " Rgb(225, 29, 71) ") = BRAND_GREEN ∧
    sanitizeColor (some "#abcdef") = "#abcdef" :=
  ⟨sanitizeColor_contract.2.2.1 "RED" (by decide),
   sanitizeColor_contract.2.2.1 " Rgb(225, 29, 71) " (by decide),
   sanitizeColor_contract.2.2.2.1 "#abcdef" (by decide) (by decide)⟩

/-- C7: `sanitizeColor` is idempotent — re-sanitizing its output changes
nothing. -/
theorem sanitizeColor_idempotent (x : Option String) :
    sanitizeColor (some (sanitizeColor x)) = sanitizeColor x := by
  cases x with
  | none => decide
  | some s =>
    by_cases h0 : s = ""
    · subst h0; decide
    · by_cases hl : isLegacyColor s = true
      · simp only [sanitizeColor, if_neg h0, if_pos hl]
        decide
      · have hl' : isLegacyColor s = false := by simpa using hl
        simp [sanitizeColor, h0, hl']

/-- C9: when the settings read fails or returns no row, `getClubSettings`
returns the complete built-in default record, whose achievement catalogue
has exactly the six built-in entries. -/
theorem getClubSettings_error_returns_defaults :
    (∀ data : Option ClubSettingsRow, getClubSettings true data = defaultClubSettings) ∧
    (∀ error : Bool, getClubSettings error none = defaultClubSettings) ∧
    defaultClubSettings.achievements.length = 6 := by
  refine ⟨fun data => ?_, fun error => ?_, by decide⟩
  · cases data <;> rfl
  · cases error <;> rfl

/-- C10: every ride created via `createRide` is stored with status
`upcoming`, and therefore appears in the upcoming-rides list computed
from any store containing it. -/
theorem createRide_status_upcoming (r : RideInput) :
    (createRide r).status = "upcoming" ∧
    ∀ rides : List Ride, createRide r ∈ upcomingRides (rides ++ [createRide r]) := by
  refine ⟨rfl, fun rides => ?_⟩
  unfold upcomingRides
  rw [List.mem_filter]
  exact ⟨List.mem_append_right _ (List.mem_singleton_self _), by simp [createRide]⟩

/-- A member with five road-captain duties and nothing else. -/
def rpUser : User :=
  { id := "1", name := "u", totalRides := 0, totalKms := 0, leads := 0, sweeps := 0, rps := 5 }

/-- Duplicate-threshold catalogue from the spec's edge-case scenario. -/
def rpCat : List Achievement :=
  [ { id := none, threshold := 5, label := "A", category := .RPs, icon := none },
    { id := none, threshold := 5, label := "B", category := .RPs, icon := none } ]

/-- The entry the engine emits for `rpCat` / `rpUser`: the raw formula is
`0/0` (`NaN`), the displayed fraction is forced to `100`. -/
def rpEntry : CategoryProgress :=
  { category := .RPs, current := 5, prevThreshold := 5,
    nextAchievement := { id := none, threshold := 5, label := "B", category := .RPs, icon := none },
    progress := JVal.nan, isMaxed := true, displayed := JVal.num 100 }

/-- C2: every entry emitted by the achievement-progress computation has a
displayed progress fraction that is an actual number in `[0, 100]`. -/
theorem achievementProgress_displayed_fraction_in_range (achievements : List Achievement)
    (u : User) (e : CategoryProgress) (he : e ∈ achievementProgress achievements u) :
    ∃ q : ℚ, e.displayed = JVal.num q ∧ 0 ≤ q ∧ q ≤ 100 := by
  obtain ⟨c, hc⟩ := mem_achievementProgress.mp he
  obtain ⟨hne, rfl⟩ := computeCategoryProgress_some_inv hc
  by_cases hm : isMaxedOf (sortedCatAchievements achievements c) (getStatValue u c) hne = true
  · exact ⟨100, by simp [hm], by norm_num, by norm_num⟩
  · have hm' : isMaxedOf (sortedCatAchievements achievements c) (getStatValue u c) hne = false := by
      simpa using hm
    have hvlt : getStatValue u c <
        ((sortedCatAchievements achievements c).getLast hne).threshold := by
      have h1 := hm'
      unfold isMaxedOf at h1
      rw [decide_eq_false_iff_not, not_le] at h1
      exact h1
    have hnext : getStatValue u c <
        (nextAchievementOf (sortedCatAchievements achievements c) (getStatValue u c) hne).threshold := by
      unfold nextAchievementOf
      cases hf : (sortedCatAchievements achievements c).find?
          (fun x => decide (getStatValue u c < x.threshold)) with
      | none => simpa using hvlt
      | some x =>
        have hx := List.find?_some hf
        simp only [decide_eq_true_eq] at hx
        simpa using hx
    have hnan : jdiv
        (getStatValue u c -
          prevThresholdOf (sortedCatAchievements achievements c) (getStatValue u c))
        ((nextAchievementOf (sortedCatAchievements achievements c) (getStatValue u c) hne).threshold -
          prevThresholdOf (sortedCatAchievements achievements c) (getStatValue u c)) ≠ JVal.nan := by
      unfold jdiv
      split_ifs with h1 h2 h3 <;> first | (exfalso; omega) | simp
    obtain ⟨q, hq, h0, h100⟩ := clamp_of_ne_nan _ hnan
    refine ⟨q, ?_, h0, h100⟩
    simp only [hm', Bool.false_eq_true, if_false]
    unfold progressOf
    exact hq

/-- C2 witness: the duplicate-threshold scenario emits one entry whose
displayed fraction is in range. -/
theorem achievementProgress_displayed_fraction_in_range_witness :
    rpEntry ∈ achievementProgress rpCat rpUser ∧
    (∃ q : ℚ, rpEntry.displayed = JVal.num q ∧ 0 ≤ q ∧ q ≤ 100) :=
  ⟨by decide, achievementProgress_displayed_fraction_in_range rpCat rpUser rpEntry (by decide)⟩

/-- A member with ten lead duties. -/
def leadsUser : User :=
  { id := "3", name := "w", totalRides := 0, totalKms := 0, leads := 10, sweeps := 0, rps := 0 }

/-- `First Lead` at threshold 5. -/
def firstLead : Achievement :=
  { id := none, threshold := 5, label := "First Lead", category := .Leads, icon := none }

/-- `Road Master` at threshold 10. -/
def roadMaster : Achievement :=
  { id := none, threshold := 10, label := "Road Master", category := .Leads, icon := none }

/-- The claim's two-achievement Leads catalogue. -/
def leadsCat : List Achievement := [firstLead, roadMaster]

/-- C3: when the stat value reaches every threshold of a nonempty
category, the emitted entry is maxed, its displayed fraction is exactly
100, and its next achievement is the last element of the
ascending-sorted list; in the concrete two-achievement scenario with
`current = 10` the next achievement is `Road Master`. -/
theorem maxed_category_displays_100 :
    (∀ (achievements : List Achievement) (u : User) (cat : AchievementCategory),
      achievements.filter (fun x => decide (x.category = cat)) ≠ [] →
      (∀ x ∈ achievements.filter (fun x => decide (x.category = cat)),
        x.threshold ≤ getStatValue u cat) →
      ∃ e, computeCategoryProgress achievements u cat = some e ∧
        e.isMaxed = true ∧ e.displayed = JVal.num 100 ∧
        (sortedCatAchievements achievements cat).getLast? = some e.nextAchievement) ∧
    (∃ e, computeCategoryProgress leadsCat leadsUser .Leads = some e ∧
      e.isMaxed = true ∧ e.displayed = JVal.num 100 ∧ e.nextAchievement = roadMaster) := by
  constructor
  · intro achievements u cat hne hall
    have hsne : sortedCatAchievements achievements cat ≠ [] := by
      intro h0
      exact hne ((sortedCatAchievements_eq_nil_iff achievements cat).mp h0)
    have hallS : ∀ x ∈ sortedCatAchievements achievements cat,
        x.threshold ≤ getStatValue u cat :=
      fun x hx => hall x ((sortedCatAchievements_perm achievements cat).mem_iff.mp hx)
    have hmax : isMaxedOf (sortedCatAchievements achievements cat) (getStatValue u cat) hsne
        = true := by
      unfold isMaxedOf
      rw [decide_eq_true_eq]
      exact hallS _ (List.getLast_mem hsne)
    have hfind : (sortedCatAchievements achievements cat).find?
        (fun x => decide (getStatValue u cat < x.threshold)) = none := by
      rw [List.find?_eq_none]
      intro x hx
      simp only [decide_eq_true_eq, not_lt]
      exact hallS x hx
    have hnexteq : nextAchievementOf (sortedCatAchievements achievements cat)
        (getStatValue u cat) hsne = (sortedCatAchievements achievements cat).getLast hsne := by
      unfold nextAchievementOf
      rw [hfind]
      rfl
    refine ⟨_, computeCategoryProgress_of_ne hsne, ?_, ?_, ?_⟩
    · simpa using hmax
    · simp [hmax]
    · rw [List.getLast?_eq_getLast _ hsne]
      simp [hnexteq]
  · exact ⟨{ category := .Leads, current := 10, prevThreshold := 10,
             nextAchievement := roadMaster, progress := JVal.nan,
             isMaxed := true, displayed := JVal.num 100 },
           by decide, by decide, by decide, by decide⟩

/-- C3 witness: the concrete two-achievement Leads scenario discharges the
general statement's hypotheses. -/
theorem maxed_category_displays_100_witness :
    (leadsCat.filter (fun x => decide (x.category = AchievementCategory.Leads)) ≠ []) ∧
    (∀ x ∈ leadsCat.filter (fun x => decide (x.category = AchievementCategory.Leads)),
      x.threshold ≤ getStatValue leadsUser AchievementCategory.Leads) ∧
    (∃ e, computeCategoryProgress leadsCat leadsUser AchievementCategory.Leads = some e ∧
      e.isMaxed = true ∧ e.displayed = JVal.num 100 ∧
      (sortedCatAchievements leadsCat AchievementCategory.Leads).getLast? = some e.nextAchievement) :=
  ⟨by decide, by decide,
   maxed_category_displays_100.1 leadsCat leadsUser .Leads (by decide) (by decide)⟩

/-- C6: when every achievement of a nonempty category shares one
threshold and the stat value equals it, the raw progress formula divides
`0/0` — the entry's clamped `progress` value is literally `NaN` — yet the
`isMaxed` override makes the displayed fraction exactly `100`; the
concrete duplicate-threshold scenario behaves the same way. -/
theorem equal_thresholds_divide_by_zero_guarded :
    (∀ (achievements : List Achievement) (u : User) (cat : AchievementCategory) (t : Int),
      achievements.filter (fun x => decide (x.category = cat)) ≠ [] →
      (∀ x ∈ achievements.filter (fun x => decide (x.category = cat)), x.threshold = t) →
      getStatValue u cat = t →
      ∃ e, computeCategoryProgress achievements u cat = some e ∧
        e.progress = JVal.nan ∧ e.isMaxed = true ∧ e.displayed = JVal.num 100) ∧
    (∃ e, computeCategoryProgress rpCat rpUser .RPs = some e ∧
      e.progress = JVal.nan ∧ e.isMaxed = true ∧ e.displayed = JVal.num 100) := by
  constructor
  · intro achievements u cat t hne hall hv
    have hsne : sortedCatAchievements achievements cat ≠ [] := by
      intro h0
      exact hne ((sortedCatAchievements_eq_nil_iff achievements cat).mp h0)
    have hallS : ∀ x ∈ sortedCatAchievements achievements cat, x.threshold = t :=
      fun x hx => hall x ((sortedCatAchievements_perm achievements cat).mem_iff.mp hx)
    have hlast : ((sortedCatAchievements achievements cat).getLast hsne).threshold = t :=
      hallS _ (List.getLast_mem hsne)
    have hmax : isMaxedOf (sortedCatAchievements achievements cat) (getStatValue u cat) hsne
        = true := by
      unfold isMaxedOf
      rw [decide_eq_true_eq, hlast, hv]
    have hfind : (sortedCatAchievements achievements cat).find?
        (fun x => decide (getStatValue u cat < x.threshold)) = none := by
      rw [List.find?_eq_none]
      intro x hx
      simp only [decide_eq_true_eq, not_lt, hallS x hx, hv]
      exact le_refl t
    have hnexteq : (nextAchievementOf (sortedCatAchievements achievements cat)
        (getStatValue u cat) hsne).threshold = t := by
      unfold nextAchievementOf
      rw [hfind]
      simpa using hlast
    have hfilter : (sortedCatAchievements achievements cat).filter
        (fun x => decide (x.threshold ≤ getStatValue u cat)) =
        sortedCatAchievements achievements cat := by
      rw [List.filter_eq_self]
      intro x hx
      simp only [decide_eq_true_eq, hallS x hx, hv]
      exact le_refl t
    have hprev : prevThresholdOf (sortedCatAchievements achievements cat) (getStatValue u cat)
        = t := by
      unfold prevThresholdOf
      rw [hfilter, List.getLast?_eq_getLast _ hsne]
      exact hlast
    have hprog : progressOf (sortedCatAchievements achievements cat) (getStatValue u cat) hsne
        = JVal.nan := by
      unfold progressOf
      rw [hprev, hnexteq, hv]
      simp [jdiv, jmul100, jmax0, jmin100]
    refine ⟨_, computeCategoryProgress_of_ne hsne, ?_, ?_, ?_⟩
    · simpa using hprog
    · simpa using hmax
    · simp [hmax]
  · exact ⟨rpEntry, by decide, by decide, by decide, by decide⟩

/-- C6 witness: the duplicate-threshold scenario discharges the general
statement's hypotheses at threshold 5. -/
theorem equal_thresholds_divide_by_zero_guarded_witness :
    (rpCat.filter (fun x => decide (x.category = AchievementCategory.RPs)) ≠ []) ∧
    (∀ x ∈ rpCat.filter (fun x => decide (x.category = AchievementCategory.RPs)),
      x.threshold = 5) ∧
    getStatValue rpUser AchievementCategory.RPs = 5 ∧
    (∃ e, computeCategoryProgress rpCat rpUser AchievementCategory.RPs = some e ∧
      e.progress = JVal.nan ∧ e.isMaxed = true ∧ e.displayed = JVal.num 100) :=
  ⟨by decide, by decide, by decide,
   equal_thresholds_divide_by_zero_guarded.1 rpCat rpUser .RPs 5
     (by decide) (by decide) (by decide)⟩

/-- C8: a category with no achievements in the catalogue produces no
entry at all in the achievement-progress output. -/
theorem empty_category_not_emitted (achievements : List Achievement) (u : User)
    (cat : AchievementCategory)
    (h : achievements.filter (fun x => decide (x.category = cat)) = []) :
    ∀ e ∈ achievementProgress achievements u, e.category ≠ cat := by
  intro e he hcc
  obtain ⟨c, hc⟩ := mem_achievementProgress.mp he
  obtain ⟨hne, rfl⟩ := computeCategoryProgress_some_inv hc
  have hcc' : c = cat := hcc
  subst hcc'
  exact hne ((sortedCatAchievements_eq_nil_iff achievements c).mpr h)

/-- C8 witness: a catalogue holding only RPs achievements emits no Kms
entry. -/
theorem empty_category_not_emitted_witness :
    (rpCat.filter (fun x => decide (x.category = AchievementCategory.Kms)) = []) ∧
    (∀ e ∈ achievementProgress rpCat rpUser, e.category ≠ AchievementCategory.Kms) :=
  ⟨by decide, empty_category_not_emitted rpCat rpUser .Kms (by decide)⟩

/-- A member with 400 cumulative kilometres. -/
def ironUser : User :=
  { id := "2", name := "v", totalRides := 0, totalKms := 400, leads := 0, sweeps := 0, rps := 0 }

/-- `Iron Butt` at threshold 1000. -/
def ironAch : Achievement :=
  { id := none, threshold := 1000, label := "Iron Butt", category := .Kms, icon := none }

/-- The claim's single-achievement Kms catalogue. -/
def ironCat : List Achievement := [ironAch]

/-- C4: for a nonempty category, the emitted entry's next achievement is
the first sorted achievement whose threshold strictly exceeds the stat
value (or the last sorted achievement when none exceeds it), and its
previous threshold is the greatest threshold not exceeding the stat value
(or 0 when none qualifies); the concrete single-achievement Kms scenario
with `current = 400` yields `prevThreshold = 0`, `next.threshold = 1000`,
fraction `40`, not maxed. -/
theorem next_and_prev_threshold_characterization :
    (∀ (achievements : List Achievement) (u : User) (cat : AchievementCategory),
      achievements.filter (fun x => decide (x.category = cat)) ≠ [] →
      ∃ e, computeCategoryProgress achievements u cat = some e ∧
        ((∃ x ∈ sortedCatAchievements achievements cat, getStatValue u cat < x.threshold) →
          ∃ l1 l2, sortedCatAchievements achievements cat = l1 ++ e.nextAchievement :: l2 ∧
            (∀ b ∈ l1, b.threshold ≤ getStatValue u cat) ∧
            getStatValue u cat < e.nextAchievement.threshold) ∧
        ((∀ x ∈ sortedCatAchievements achievements cat,
            x.threshold ≤ getStatValue u cat) →
          (sortedCatAchievements achievements cat).getLast? = some e.nextAchievement) ∧
        ((∃ x ∈ sortedCatAchievements achievements cat,
            x.threshold ≤ getStatValue u cat) →
          (∃ x ∈ sortedCatAchievements achievements cat,
            x.threshold ≤ getStatValue u cat ∧ x.threshold = e.prevThreshold) ∧
          (∀ b ∈ sortedCatAchievements achievements cat,
            b.threshold ≤ getStatValue u cat → b.threshold ≤ e.prevThreshold)) ∧
        ((∀ x ∈ sortedCatAchievements achievements cat,
            getStatValue u cat < x.threshold) → e.prevThreshold = 0)) ∧
    (∃ e, computeCategoryProgress ironCat ironUser .Kms = some e ∧
      e.prevThreshold = 0 ∧ e.nextAchievement.threshold = 1000 ∧
      e.progress = JVal.num 40 ∧ e.displayed = JVal.num 40 ∧ e.isMaxed = false) := by
  constructor
  · intro achievements u cat hne
    have hsne : sortedCatAchievements achievements cat ≠ [] := by
      intro h0
      exact hne ((sortedCatAchievements_eq_nil_iff achievements cat).mp h0)
    refine ⟨_, computeCategoryProgress_of_ne hsne, ?_, ?_, ?_, ?_⟩
    · -- next = first exceeding, positionally
      rintro ⟨x, hxs, hxlt⟩
      have hsome : ((sortedCatAchievements achievements cat).find?
          (fun y => decide (getStatValue u cat < y.threshold))).isSome := by
        rw [List.find?_isSome]
        exact ⟨x, hxs, decide_eq_true hxlt⟩
      obtain ⟨w, hw⟩ := Option.isSome_iff_exists.mp hsome
      have hnexteq : nextAchievementOf (sortedCatAchievements achievements cat)
          (getStatValue u cat) hsne = w := by
        unfold nextAchievementOf
        rw [hw]
        rfl
      obtain ⟨l1, l2, hsplit, hl1, hpw⟩ := find?_first_decomp hw
      refine ⟨l1, l2, ?_, ?_, ?_⟩
      · simpa [hnexteq] using hsplit
      · intro b hb
        have := hl1 b hb
        rw [decide_eq_false_iff_not, not_lt] at this
        exact this
      · rw [decide_eq_true_eq] at hpw
        simpa [hnexteq] using hpw
    · -- no exceeding threshold: next = last sorted achievement
      intro hall
      have hfind : (sortedCatAchievements achievements cat).find?
          (fun y => decide (getStatValue u cat < y.threshold)) = none := by
        rw [List.find?_eq_none]
        intro y hy
        simp only [decide_eq_true_eq, not_lt]
        exact hall y hy
      have hnexteq : nextAchievementOf (sortedCatAchievements achievements cat)
          (getStatValue u cat) hsne = (sortedCatAchievements achievements cat).getLast hsne := by
        unfold nextAchievementOf
        rw [hfind]
        rfl
      rw [List.getLast?_eq_getLast _ hsne]
      simp [hnexteq]
    · -- prev = greatest qualifying threshold
      rintro ⟨x, hxs, hxle⟩
      have hfne : (sortedCatAchievements achievements cat).filter
          (fun y => decide (y.threshold ≤ getStatValue u cat)) ≠ [] := by
        intro h0
        rw [List.filter_eq_nil_iff] at h0
        exact absurd (decide_eq_true hxle) (by simpa using h0 x hxs)
      obtain ⟨m, hm⟩ : ∃ m, ((sortedCatAchievements achievements cat).filter
          (fun y => decide (y.threshold ≤ getStatValue u cat))).getLast? = some m := by
        cases hgl : ((sortedCatAchievements achievements cat).filter
            (fun y => decide (y.threshold ≤ getStatValue u cat))).getLast? with
        | none => exact absurd (List.getLast?_eq_none_iff.mp hgl) hfne
        | some m => exact ⟨m, rfl⟩
      have hprev : prevThresholdOf (sortedCatAchievements achievements cat)
          (getStatValue u cat) = m.threshold := by
        unfold prevThresholdOf
        rw [hm]
      have hmmem := mem_of_getLast?_eq_some hm
      rw [List.mem_filter] at hmmem
      obtain ⟨hms, hmq⟩ := hmmem
      have hmle : m.threshold ≤ getStatValue u cat := of_decide_eq_true hmq
      have hfsorted : ((sortedCatAchievements achievements cat).filter
          (fun y => decide (y.threshold ≤ getStatValue u cat))).Pairwise
          (fun a b => a.threshold ≤ b.threshold) :=
        List.Pairwise.sublist (List.filter_sublist _)
          (sortedCatAchievements_sorted achievements cat)
      have hmax := sorted_getLast?_max hfsorted hm
      constructor
      · exact ⟨m, hms, hmle, by simp [hprev]⟩
      · intro b hb hble
        have hbf : b ∈ (sortedCatAchievements achievements cat).filter
            (fun y => decide (y.threshold ≤ getStatValue u cat)) :=
          List.mem_filter.mpr ⟨hb, decide_eq_true hble⟩
        simpa [hprev] using hmax b hbf
    · -- nothing qualifies: prev = 0
      intro hall
      have hfnil : (sortedCatAchievements achievements cat).filter
          (fun y => decide (y.threshold ≤ getStatValue u cat)) = [] := by
        rw [List.filter_eq_nil_iff]
        intro y hy
        simp only [decide_eq_true_eq, not_le]
        exact hall y hy
      show prevThresholdOf (sortedCatAchievements achievements cat) (getStatValue u cat) = 0
      unfold prevThresholdOf
      rw [hfnil]
      rfl
  · refine ⟨{ category := .Kms, current := 400, prevThreshold := 0,
              nextAchievement := ironAch, progress := JVal.num 40,
              isMaxed := false, displayed := JVal.num 40 }, ?_, rfl, by decide, rfl, rfl, rfl⟩
    have hs : sortedCatAchievements ironCat AchievementCategory.Kms = [ironAch] := by decide
    have hv : getStatValue ironUser AchievementCategory.Kms = 400 := by decide
    simp only [computeCategoryProgress, hs, hv]
    norm_num [prevThresholdOf, nextAchievementOf, progressOf, isMaxedOf, jdiv, jmul100,
      jmax0, jmin100, List.find?, List.filter, ironAch]

/-- C4 witness: the single-achievement Kms scenario discharges the general
statement's nonemptiness hypothesis. -/
theorem next_and_prev_threshold_characterization_witness :
    (ironCat.filter (fun x => decide (x.category = AchievementCategory.Kms)) ≠ []) ∧
    (∃ e, computeCategoryProgress ironCat ironUser AchievementCategory.Kms = some e ∧
      ((∃ x ∈ sortedCatAchievements ironCat AchievementCategory.Kms,
          getStatValue ironUser AchievementCategory.Kms < x.threshold) →
        ∃ l1 l2, sortedCatAchievements ironCat AchievementCategory.Kms =
            l1 ++ e.nextAchievement :: l2 ∧
          (∀ b ∈ l1, b.threshold ≤ getStatValue ironUser AchievementCategory.Kms) ∧
          getStatValue ironUser AchievementCategory.Kms < e.nextAchievement.threshold) ∧
      ((∀ x ∈ sortedCatAchievements ironCat AchievementCategory.Kms,
          x.threshold ≤ getStatValue ironUser AchievementCategory.Kms) →
        (sortedCatAchievements ironCat AchievementCategory.Kms).getLast? =
          some e.nextAchievement) ∧
      ((∃ x ∈ sortedCatAchievements ironCat AchievementCategory.Kms,
          x.threshold ≤ getStatValue ironUser AchievementCategory.Kms) →
        (∃ x ∈ sortedCatAchievements ironCat AchievementCategory.Kms,
          x.threshold ≤ getStatValue ironUser AchievementCategory.Kms ∧
          x.threshold = e.prevThreshold) ∧
        (∀ b ∈ sortedCatAchievements ironCat AchievementCategory.Kms,
          b.threshold ≤ getStatValue ironUser AchievementCategory.Kms →
          b.threshold ≤ e.prevThreshold)) ∧
      ((∀ x ∈ sortedCatAchievements ironCat AchievementCategory.Kms,
          getStatValue ironUser AchievementCategory.Kms < x.threshold) →
        e.prevThreshold = 0)) :=
  ⟨by decide,
   next_and_prev_threshold_characterization.1 ironCat ironUser .Kms (by decide)⟩
